import Mathlib

/-!
Verification of the autopdf outline-extraction core.

The repository holds two extraction pipelines over lists of positioned,
font-annotated text fragments: `Enhanced_pdf_extractor.py`
(document-type classification, a heading gate, ultra-conservative
pattern-only heading scoring) and `p_final_pdf_extractor.py`
(statistical size-based heading scoring with post-processing).  Fragment
extraction from the PDF itself is an external collaborator; the
embedding below models the fragment-list → result core of both
pipelines.  Python floats are modelled by exact rationals, Python
strings by Lean strings over their character lists (ASCII semantics for
case folding and character classes, which covers every character class
the source uses).
-/

/- Batteries marks rational arithmetic irreducible; the embeddings below
evaluate rationals inside `decide`, so reducibility is restored locally. -/
attribute [local semireducible] Rat.ofScientific Rat.mul Rat.inv Rat.add Rat.sub

namespace AutoPdf

/-- A text fragment as both extractors consume it: text, 1-based page,
position (`x`, `y` of the bounding box origin), average font size and
bold flag. -/
structure Fragment where
  text : String
  page : Nat
  x : ℚ
  y : ℚ
  size : ℚ
  is_bold : Bool
deriving DecidableEq

/-- One outline entry of the final result: `{'level', 'text', 'page'}`. -/
structure OutlineEntry where
  level : String
  text : String
  page : Nat
deriving DecidableEq

/-- The sole result shape: `{'title': ..., 'outline': [...]}`. -/
structure ExtractionResult where
  title : String
  outline : List OutlineEntry
deriving DecidableEq

/-! ## Python text primitives -/

/-- Python `\s` over ASCII: space, tab, newline, return, vertical tab, form feed. -/
def isPySpace (c : Char) : Bool :=
  c = ' ' || c = '\t' || c = '\n' || c = '\r' || c = '\x0b' || c = '\x0c'

/-- Python `str.strip()`. -/
def pyStrip (s : String) : String :=
  String.mk (((s.data.dropWhile isPySpace).reverse.dropWhile isPySpace).reverse)

/-- Python `str.lower()` (ASCII letters). -/
def pyLower (s : String) : String :=
  String.mk (s.data.map Char.toLower)

/-- Python substring test `pat in hay`. -/
def strHas (hay pat : String) : Bool :=
  (List.range (hay.data.length + 1)).any fun i => pat.data.isPrefixOf (hay.data.drop i)

/-- Python `str.startswith`. -/
def strStarts (s p : String) : Bool := p.data.isPrefixOf s.data

/-- Python `str.endswith`. -/
def strEnds (s p : String) : Bool := p.data.isSuffixOf s.data

/-- Python `str.startswith` with a tuple of prefixes. -/
def startsWithAny (s : String) (ps : List String) : Bool := ps.any fun p => strStarts s p

/-- Worker for `re.sub(r'\s+', ' ', s)`: the flag records whether the
previous character was whitespace already replaced. -/
def collapseRun : Bool → List Char → List Char
  | _, [] => []
  | prev, c :: rest =>
    if isPySpace c then
      if prev then collapseRun true rest else ' ' :: collapseRun true rest
    else c :: collapseRun false rest

/-- Python `re.sub(r'\s+', ' ', s)`. -/
def pyCollapse (s : String) : String := String.mk (collapseRun false s.data)

/-- Python `str.isupper()` over ASCII: at least one letter and no lowercase letter. -/
def pyIsUpper (s : String) : Bool :=
  s.data.any (fun c => c.isAlpha) && s.data.all (fun c => !c.isLower)

/-- Python `s.count(c)` for a single character. -/
def countChar (s : String) (c : Char) : Nat := (s.data.filter (· = c)).length

/-- Python string `<`: lexicographic by code point, a proper prefix is smaller. -/
def textLt : List Char → List Char → Bool
  | [], [] => false
  | [], _ :: _ => true
  | _ :: _, [] => false
  | x :: xs, y :: ys => if x < y then true else if y < x then false else textLt xs ys

/-- Python string `<=`. -/
def textLe (x y : List Char) : Bool := !(textLt y x)

/-- Python `s.split()`: pieces separated by whitespace runs, empties dropped. -/
def pySplitGo : List Char → List Char → List String
  | cur, [] => if cur.isEmpty then [] else [String.mk cur.reverse]
  | cur, c :: rest =>
    if isPySpace c then
      if cur.isEmpty then pySplitGo [] rest
      else String.mk cur.reverse :: pySplitGo [] rest
    else pySplitGo (c :: cur) rest

/-- Python `s.split()` (no argument). -/
def pySplit (s : String) : List String := pySplitGo [] s.data

/-! ## A stable insertion sort

Python's `list.sort(key=k)` is a stable sort by `k`; a stable sort is
uniquely determined by the key order, and insertion sort with the
reflexive total relation "key of `a` ≤ key of `b`" computes it. -/

/-- Insert `a` in front of the first element `b` with `le a b`. -/
def orderedIns (le : α → α → Bool) (a : α) : List α → List α
  | [] => [a]
  | b :: l => if le a b then a :: b :: l else b :: orderedIns le a l

/-- Stable insertion sort by the reflexive total relation `le`. -/
def insSort (le : α → α → Bool) : List α → List α
  | [] => []
  | a :: l => orderedIns le a (insSort le l)

/-! ## The regular-expression fragments the extractors use -/

/-- `\s*` at the head. -/
def dropWs (l : List Char) : List Char := l.dropWhile isPySpace

/-- `\d+` at the head (greedy run; the caller checks non-emptiness). -/
def takeDigits (l : List Char) : List Char := l.takeWhile Char.isDigit

/-- `\s+` then one character of class `cls`: the continuation of the
prefix patterns below (for `re.match`, a trailing `+` needs only its
first character). -/
def wsPlusThen (cls : Char → Bool) (l : List Char) : Bool :=
  let ws := l.takeWhile isPySpace
  !ws.isEmpty &&
    match l.drop ws.length with
    | c :: _ => cls c
    | [] => false

/-- The group `([A-Z][a-z].*?[a-z])\s*$` of the definite numbered-section
patterns, under `re.IGNORECASE` (so both classes mean "letter"); `.` does
not match a newline, `\s` does. -/
def defTail (l : List Char) : Bool :=
  match l with
  | c0 :: c1 :: rest =>
    c0.isAlpha && c1.isAlpha &&
      ((List.range rest.length).any fun j =>
        (rest.take j).all (fun c => c != '\n') &&
        (match rest.drop j with
         | cj :: after => cj.isAlpha && after.all isPySpace
         | [] => false))
  | _ => false

/-- `heading_patterns['h1_definite']`:
`^\s*(\d+)\.\s+([A-Z][a-z].*?[a-z])\s*$` with `re.IGNORECASE`. -/
def h1_definite (s : String) : Bool :=
  let l1 := dropWs s.data
  let ds := takeDigits l1
  !ds.isEmpty &&
    match l1.drop ds.length with
    | '.' :: rest =>
      let ws := rest.takeWhile isPySpace
      !ws.isEmpty && defTail (rest.drop ws.length)
    | _ => false

/-- `heading_patterns['h2_definite']`:
`^\s*(\d+)\.(\d+)\s+([A-Z][a-z].*?[a-z])\s*$` with `re.IGNORECASE`. -/
def h2_definite (s : String) : Bool :=
  let l1 := dropWs s.data
  let d1 := takeDigits l1
  !d1.isEmpty &&
    match l1.drop d1.length with
    | '.' :: r2 =>
      let d2 := takeDigits r2
      !d2.isEmpty &&
        (let r3 := r2.drop d2.length
         let ws := r3.takeWhile isPySpace
         !ws.isEmpty && defTail (r3.drop ws.length))
    | _ => false

/-- The lowered alternatives of `heading_patterns['h1_special']`
(`Acknowledgements?` contributes both spellings). -/
def special_section_names : List String :=
  ["table of contents", "references", "bibliography", "acknowledgement",
   "acknowledgements", "abstract", "summary", "introduction", "conclusion"]

/-- `heading_patterns['h1_special']`:
`^\s*(Table of Contents|...|Appendix [A-Z])\s*$` with `re.IGNORECASE`. -/
def h1_special (s : String) : Bool :=
  let t := pyLower (pyStrip s)
  (special_section_names.any fun n => decide (t = n)) ||
    (match t.data with
     | 'a' :: 'p' :: 'p' :: 'e' :: 'n' :: 'd' :: 'i' :: 'x' :: ' ' :: [c] => c.isAlpha
     | _ => false)

namespace Enhanced

/-- `document_type_indicators['form']`. -/
def form_indicators : List String :=
  ["application", "form", "for:", "date:", "name:", "address:", "rsvp:", "signature"]

/-- `document_type_indicators['invitation']`. -/
def invitation_indicators : List String :=
  ["invited", "party", "celebration", "event", "rsvp", "please join"]

/-- `document_type_indicators['flyer']`. -/
def flyer_indicators : List String :=
  ["sale", "discount", "special offer", "limited time", "call now"]

/-- `document_type_indicators['certificate']`. -/
def certificate_indicators : List String :=
  ["certificate", "certifies", "completion", "achievement"]

/-- `never_headings`: text containing any of these is never a heading or title. -/
def never_headings : List String :=
  ["www.", "http", ".com", ".org", "email", "@",
   "copyright", "©", "page", "version", "date:",
   "rsvp:", "address:", "phone:", "contact:",
   "___", "---", "...", "signature", "print name"]

/-- `' '.join(block['text'].lower() for block in blocks)`. -/
def allTextLower (blocks : List Fragment) : String :=
  String.intercalate " " (blocks.map fun b => pyLower b.text)

/-- `sum(1 for indicator in indicators if indicator in all_text)`. -/
def scoreOf (indicators : List String) (all_text : String) : Nat :=
  (indicators.filter fun ind => strHas all_text ind).length

/-- `sum(len(block['text']) for block in blocks) / max(total_blocks, 1)`. -/
def avgTextLength (blocks : List Fragment) : ℚ :=
  ((blocks.map fun b => b.text.length).sum : ℚ) / (max blocks.length 1 : ℚ)

/-- `detect_document_type`: keyword scores over the joined lowered text, then
the sparse / complex / standard decision.  The certificate score is computed
by the source but read by no branch. -/
def detect_document_type (blocks : List Fragment) : String :=
  let all_text := allTextLower blocks
  let form_score := scoreOf form_indicators all_text
  let invitation_score := scoreOf invitation_indicators all_text
  let flyer_score := scoreOf flyer_indicators all_text
  let _certificate_score := scoreOf certificate_indicators all_text
  if blocks.length < 20 ∧ avgTextLength blocks < 50 then
    if form_score > 2 then "form"
    else if invitation_score > 1 then "invitation"
    else if flyer_score > 1 then "flyer"
    else "simple"
  else if blocks.length > 100 then "complex_document"
  else "standard_document"

/-- The per-block score of `_extract_title_from_visual_document`
(`t` is the stripped text). -/
def visualScore (b : Fragment) (t : String) : ℚ :=
  (if b.size > 14 then b.size / 4 else 0) +
  (if b.is_bold then 10 else 0) +
  (if 5 < t.length ∧ t.length < 80 then 5 else 0) +
  (if pyIsUpper t then 8 else 0) +
  (if ".,!?".data.all (fun c => !(t.data.contains c)) then 3 else 0) +
  (if b.y < 200 then 5 else 0)

/-- The skip test of `_extract_title_from_visual_document` and of its
fallback loop's denylist part. -/
def neverHit (t : String) : Bool :=
  never_headings.any fun ind => strHas (pyLower t) ind

/-- The best-candidate scan of `_extract_title_from_visual_document`:
`(best_candidate, best_score)`, updated when `score > best_score`. -/
def visualBest (blocks : List Fragment) : Option String × ℚ :=
  blocks.foldl
    (fun acc b =>
      let t := pyStrip b.text
      if t.length < 3 ∨ neverHit t = true
          ∨ startsWithAny (pyLower t) ["page", "copyright", "©"] = true then acc
      else if acc.2 < visualScore b t then (some t, visualScore b t) else acc)
    (none, 0)

/-- `_extract_title_from_visual_document`. -/
def extract_title_visual (blocks : List Fragment) : String :=
  let fp := (blocks.filter fun b => b.page == 1).take 10
  match (visualBest fp).1 with
  | some t => t
  | none =>
    match fp.find? (fun b =>
        let t := pyStrip b.text
        decide (3 < t.length) && !neverHit t) with
    | some b => pyStrip b.text
    | none => "Document Title"

/-- `_is_navigation_text`'s `nav_indicators`. -/
def nav_indicators : List String :=
  ["page ", "copyright", "©", "www.", "http", "@",
   ".com", ".org", "version", "date:", "revised",
   "rsvp:", "phone:", "address:", "email:"]

/-- `_is_navigation_text`. -/
def is_navigation_text (t : String) : Bool :=
  nav_indicators.any fun ind => strHas (pyLower t) ind

/-- `_extract_title_from_structured_document`. -/
def extract_title_structured (blocks : List Fragment) : String :=
  match ((blocks.filter fun b => b.page == 1).take 5).find? (fun b =>
      let t := pyStrip b.text
      decide (10 < t.length) && decide (t.length < 150) &&
        !is_navigation_text t &&
        !startsWithAny (pyLower t) ["page", "copyright", "©"]) with
  | some b => pyStrip b.text
  | none => "Document Title"

/-- `_extract_title_from_simple_document`. -/
def extract_title_simple (blocks : List Fragment) : String :=
  match (blocks.take 5).find? (fun b =>
      let t := pyStrip b.text
      decide (5 < t.length) && decide (t.length < 100)) with
  | some b => pyStrip b.text
  | none => "Document Title"

/-- `extract_title_enhanced`: strategy dispatch on the document type. -/
def extract_title_enhanced (blocks : List Fragment) (doc_type : String) : String :=
  if blocks.isEmpty then "Document Title"
  else if doc_type ∈ (["invitation", "flyer", "form"] : List String) then
    extract_title_visual blocks
  else if doc_type ∈ (["complex_document", "standard_document"] : List String) then
    extract_title_structured blocks
  else extract_title_simple blocks

/-- `should_extract_headings`: the heading gate. -/
def should_extract_headings (doc_type : String) (blocks : List Fragment) : Bool :=
  if doc_type ∈ (["form", "invitation", "flyer", "certificate"] : List String) then false
  else if blocks.length < 15 then false
  else
    (blocks.any fun b => h1_definite b.text || h2_definite b.text) ||
      (blocks.any fun b => h1_special b.text)

/-- `calculate_ultra_conservative_heading_score` (the source's `doc_type`
parameter is read by no line of the body). -/
def calculate_ultra_conservative_heading_score (b : Fragment) (doc_type : String) :
    String × ℚ :=
  let t := pyStrip b.text
  if t.length < 4 ∨ 100 < t.length
      ∨ neverHit t = true
      ∨ strHas t "___" = true ∨ strHas t "---" = true ∨ strHas t "..." = true then
    ("CONTENT", 0)
  else
    let scores : ℚ × ℚ :=
      if h1_definite t then (100, 0)
      else if h2_definite t then (0, 100)
      else if h1_special t then (90, 0)
      else (0, 0)
    if scores.1 ≥ 80 then ("H1", min (scores.1 / 100) 1)
    else if scores.2 ≥ 80 then ("H2", min (scores.2 / 100) 1)
    else ("CONTENT", 0)

/-- A potential heading of the Enhanced pipeline:
`{'level', 'text', 'page', 'confidence'}`. -/
structure EHeading where
  level : String
  text : String
  page : Nat
  confidence : ℚ
deriving DecidableEq

/-- The `potential_headings` loop of `extract_outline`. -/
def potentialHeadings (blocks : List Fragment) (doc_type : String) : List EHeading :=
  blocks.filterMap fun b =>
    let t := pyStrip b.text
    let lc := calculate_ultra_conservative_heading_score b doc_type
    if lc.1 ≠ "CONTENT" ∧ (0.8 : ℚ) ≤ lc.2 then some ⟨lc.1, t, b.page, lc.2⟩
    else none

/-- The sort key `(x['page'], x['text'])` of `extract_outline`, as the
reflexive total relation of the stable sort. -/
def ehLeB (a b : EHeading) : Bool :=
  decide (a.page < b.page) || (decide (a.page = b.page) && textLe a.text.data b.text.data)

/-- The duplicate-removal loop of `extract_outline`: keep a heading whose
exact text no kept heading carries yet. -/
def dedupGo : List EHeading → List String → List EHeading
  | [], _ => []
  | h :: t, seen =>
    if seen.any fun s => decide (s = h.text) then dedupGo t seen
    else h :: dedupGo t (h.text :: seen)

/-- `extract_outline` of the Enhanced extractor, from the fragment list on
(fragment extraction from the PDF is the upstream collaborator). -/
def extract_outline (blocks : List Fragment) : ExtractionResult :=
  if blocks.isEmpty then ⟨"Empty Document", []⟩
  else
    let doc_type := detect_document_type blocks
    let title := extract_title_enhanced blocks doc_type
    if !(should_extract_headings doc_type blocks) then ⟨title, []⟩
    else
      let final := dedupGo (insSort ehLeB (potentialHeadings blocks doc_type)) []
      ⟨title, final.map fun h => ⟨h.level, h.text, h.page⟩⟩

end Enhanced


namespace PFinal

/-- `^(Chapter|Section|Part|Appendix)\s+[IVX0-9]+` as a `re.match` test. -/
def patChapter (l : List Char) : Bool :=
  ["Chapter", "Section", "Part", "Appendix"].any fun w =>
    w.data.isPrefixOf l &&
      wsPlusThen (fun c => c = 'I' || c = 'V' || c = 'X' || c.isDigit)
        (l.drop w.data.length)

/-- `^\d+\.\d*\s+[A-Z]` (the second digit run may be empty). -/
def patNumDot (l : List Char) : Bool :=
  let d1 := takeDigits l
  !d1.isEmpty &&
    match l.drop d1.length with
    | '.' :: r =>
      let d2 := takeDigits r
      wsPlusThen Char.isUpper (r.drop d2.length)
    | _ => false

/-- `^[A-Z][a-z]+.*:$`: an uppercase letter, a lowercase letter, and a
final colon with no newline in between (`$` read as end of string). -/
def patCapColon (l : List Char) : Bool :=
  match l with
  | c0 :: c1 :: rest =>
    c0.isUpper && c1.isLower &&
      (match rest.getLast? with
       | some lastc => lastc = ':' && rest.dropLast.all (fun c => c != '\n')
       | none => false)
  | _ => false

/-- `^(Summary|Background|Introduction|Conclusion|Overview|Abstract)$`. -/
def patSectionWord (s : String) : Bool :=
  ["Summary", "Background", "Introduction", "Conclusion", "Overview", "Abstract"].any
    fun w => decide (s = w)

/-- `^Phase\s+[IVX]+` — also the test for `^Phase\s+[IVX]+:?` of the
confidence pattern list, whose optional colon changes nothing for a
`re.match` test. -/
def patPhase (l : List Char) : Bool :=
  "Phase".data.isPrefixOf l &&
    wsPlusThen (fun c => c = 'I' || c = 'V' || c = 'X') (l.drop 5)

/-- `^Appendix\s+[A-Z]:`. -/
def patAppendixColon (l : List Char) : Bool :=
  "Appendix".data.isPrefixOf l &&
    (let r := l.drop 8
     let ws := r.takeWhile isPySpace
     !ws.isEmpty &&
       match r.drop ws.length with
       | c :: ':' :: _ => c.isUpper
       | _ => false)

/-- `^[A-Z][A-Z\s]+$` (a short all-caps line). -/
def patAllCaps (l : List Char) : Bool :=
  match l with
  | c :: rest =>
    c.isUpper && !rest.isEmpty && rest.all (fun d => d.isUpper || isPySpace d)
  | [] => false

/-- `^(What|How|Why|Where|When)\s+[a-z]`. -/
def patQuestion (l : List Char) : Bool :=
  ["What", "How", "Why", "Where", "When"].any fun w =>
    w.data.isPrefixOf l && wsPlusThen Char.isLower (l.drop w.data.length)

/-- `matches_heading_pattern`: any of the eight patterns matches at the
start of the text. -/
def matches_heading_pattern (text : String) : Bool :=
  patChapter text.data || patNumDot text.data || patCapColon text.data ||
    patSectionWord text || patPhase text.data || patAppendixColon text.data ||
    patAllCaps text.data || patQuestion text.data

/-- `is_obviously_body_text`. -/
def is_obviously_body_text (text : String) : Bool :=
  (decide (2 ≤ countChar text '.') && !strEnds text ".") ||
  (match text.data with
   | c :: _ => c.isLower && !startsWithAny text ["e-", "i.e.", "etc."]
   | [] => false) ||
  (decide (150 < text.length) && strHas text " ") ||
  startsWithAny text ["The ", "This ", "It ", "We ", "Our ", "In order", "For the"]

/-- `could_be_heading`: the statistical-mode pre-filter. -/
def could_be_heading (text : String) (size mean_size : ℚ) : Bool :=
  if text.length < 3 ∨ 200 < text.length then false
  else if size < mean_size - 1 then false
  else if is_obviously_body_text text then false
  else true

/-- The `thresholds` dict `{'h1','h2','h3','body'}`. -/
structure Thresholds where
  h1 : ℚ
  h2 : ℚ
  h3 : ℚ
  body : ℚ
deriving DecidableEq

/-- `calculate_heading_thresholds` over the descending distinct sizes and
the mean size (the median sits in `size_stats` but is read nowhere). -/
def calculate_heading_thresholds (sizes : List ℚ) (mean_size : ℚ) : Thresholds :=
  if 4 ≤ sizes.length then
    ⟨sizes.getD 0 0, sizes.getD 1 0, sizes.getD 2 0, mean_size⟩
  else if 2 ≤ sizes.length then
    ⟨sizes.getD 0 0,
     if 1 < sizes.length then sizes.getD 1 0 else sizes.getD 0 0 - 1,
     mean_size + 1, mean_size⟩
  else
    ⟨mean_size + 4, mean_size + 2, mean_size + 1, mean_size⟩

/-- `calculate_confidence_advanced` (reads the raw, unstripped text). -/
def calculate_confidence_advanced (item : Fragment) (th : Thresholds) (mean : ℚ) : ℚ :=
  let text := item.text
  let size := item.size
  (if th.h1 ≤ size then 3.5
   else if th.h2 ≤ size then 2.5
   else if th.h3 ≤ size then 1.5
   else if mean < size then 1
   else 0) +
  (if item.is_bold then 1 else 0) +
  (if matches_heading_pattern text then 2 else 0) +
  (if strEnds text ":" then 1 else 0) +
  (if pyIsUpper text ∧ 5 < text.length ∧ text.length < 50 then 1 else 0) +
  (if item.y < 100 then 0.5 else 0) +
  (if 5 ≤ text.length ∧ text.length ≤ 80 then 0.5
   else if 150 < text.length then -1.5 else 0)

/-- `text in ["Summary", "Background", "Introduction", "Conclusion"]` of
`determine_level_advanced`. -/
def inCoreSections (s : String) : Bool :=
  ["Summary", "Background", "Introduction", "Conclusion"].any fun w => decide (s = w)

/-- `^\d+\.\d+\s+`. -/
def patSubsection (l : List Char) : Bool :=
  let d1 := takeDigits l
  !d1.isEmpty &&
    match l.drop d1.length with
    | '.' :: r =>
      let d2 := takeDigits r
      !d2.isEmpty && !((r.drop d2.length).takeWhile isPySpace).isEmpty
    | _ => false

/-- `determine_level_advanced` (the `size_stats` argument of the source is
read nowhere in the body). -/
def determine_level_advanced (item : Fragment) (th : Thresholds) : String :=
  let text := item.text
  let size := item.size
  let level :=
    if th.h1 ≤ size then "H1"
    else if th.h2 ≤ size then "H2"
    else if th.h3 ≤ size then "H3"
    else "H3"
  if patAppendixColon text.data then "H2"
  else if inCoreSections text then "H2"
  else if strStarts text "For each" && strEnds text ":" then "H4"
  else if patSubsection text.data then "H3"
  else if patPhase text.data then "H2"
  else level

/-- A potential heading of the statistical pipeline:
`{'level','text','page','size','confidence','y'}`. -/
structure PHeading where
  level : String
  text : String
  page : Nat
  size : ℚ
  confidence : ℚ
  y : ℚ
deriving DecidableEq

/-- `re.sub(r'\s+', ' ', heading['text'].lower().strip())`. -/
def normalizeHeadingText (s : String) : String := pyCollapse (pyStrip (pyLower s))

/-- The sort key `(x['page'], x['y'])` of `post_process_headings_advanced`,
as the reflexive total relation of the stable sort. -/
def pLeB (a b : PHeading) : Bool :=
  decide (a.page < b.page) || (decide (a.page = b.page) && decide (a.y ≤ b.y))

/-- The duplicate-suppression loop of `post_process_headings_advanced`:
`seen` holds the already-kept normalized texts. -/
def pDedupGo : List PHeading → List String → List OutlineEntry
  | [], _ => []
  | h :: t, seen =>
    let tn := normalizeHeadingText h.text
    if seen.any fun s => decide (s = tn) then pDedupGo t seen
    else if seen.any fun s => (strHas s tn || strHas tn s) && decide (10 < tn.length) then
      pDedupGo t seen
    else ⟨h.level, h.text, h.page⟩ :: pDedupGo t (tn :: seen)

/-- `post_process_headings_advanced`. -/
def post_process_headings_advanced (headings : List PHeading) : List OutlineEntry :=
  if headings.isEmpty then []
  else (pDedupGo (insSort pLeB headings) []).take 50

/-- The positive font sizes of `classify_headings_advanced`. -/
def posSizes (items : List Fragment) : List ℚ :=
  (items.map fun i => i.size).filter fun s => decide (0 < s)

/-- `statistics.mean` of the positive sizes. -/
def meanSize (items : List Fragment) : ℚ :=
  (posSizes items).sum / ((posSizes items).length : ℚ)

/-- `sorted(set(sizes), reverse=True)`. -/
def distinctSizesDesc (items : List Fragment) : List ℚ :=
  insSort (fun a b => decide (b ≤ a)) (posSizes items).dedup

/-- `classify_headings_advanced`: pre-filter, confidence, level, then
post-processing. -/
def classify_headings_advanced (items : List Fragment) : List OutlineEntry :=
  if items.isEmpty then []
  else if (posSizes items).isEmpty then []
  else
    let mean := meanSize items
    let th := calculate_heading_thresholds (distinctSizesDesc items) mean
    let pot := items.filterMap fun item =>
      let text := pyStrip item.text
      if could_be_heading text item.size mean then
        (let conf := calculate_confidence_advanced item th mean
         if 2 < conf then
           some (⟨determine_level_advanced item th, text,
                  item.page, item.size, conf, item.y⟩ : PHeading)
         else none)
      else none
    post_process_headings_advanced pot

/-- `^\d+$` over a character list: all digits, at least one. -/
def digitsOnly (l : List Char) : Bool := !l.isEmpty && l.all Char.isDigit

/-- `^RFP: To Develop.*March 2003.*\d+$` with `re.IGNORECASE` (`.` not
matching a newline, `$` read as end of string). -/
def patRFP (s : String) : Bool :=
  let low := (pyLower s).data
  "rfp: to develop".data.isPrefixOf low &&
    (let r := low.drop 15
     (List.range (r.length + 1)).any fun i =>
       (r.take i).all (fun c => c != '\n') &&
       "march 2003".data.isPrefixOf (r.drop i) &&
       (let r2 := r.drop (i + 10)
        (List.range (r2.length + 1)).any fun j =>
          (r2.take j).all (fun c => c != '\n') &&
          digitsOnly (r2.drop j)))

/-- `^\d+\s*$`. -/
def patDigitsWs (s : String) : Bool :=
  let ds := takeDigits s.data
  !ds.isEmpty && (s.data.drop ds.length).all isPySpace

/-- `^March \d+, \d+$` with `re.IGNORECASE`. -/
def patMarchDate (s : String) : Bool :=
  let low := (pyLower s).data
  "march ".data.isPrefixOf low &&
    (let r := low.drop 6
     let d1 := takeDigits r
     !d1.isEmpty &&
       match r.drop d1.length with
       | ',' :: ' ' :: r2 =>
         let d2 := takeDigits r2
         !d2.isEmpty && (r2.drop d2.length).isEmpty
       | _ => false)

/-- `is_header_footer` (`page_height` is the constant 800). -/
def is_header_footer (text : String) (item : Fragment) : Bool :=
  ((decide (800 * (0.9 : ℚ) < item.y) || decide (item.y < 50)) &&
    (decide (text.length < 80) &&
      (strHas text "RFP:" || strHas text "March 2003" ||
        digitsOnly (pyStrip text).data || strHas text "Business Plan"))) ||
  patRFP text || patDigitsWs text || patMarchDate text

/-- `^[0-9\s\-]+$`: only digits, whitespace and hyphens, at least one. -/
def digitsSpaceDash (l : List Char) : Bool :=
  !l.isEmpty && l.all fun c => c.isDigit || isPySpace c || c = '-'

/-- `clean_and_filter_text`. -/
def clean_and_filter_text (items : List Fragment) : List Fragment :=
  items.filterMap fun item =>
    let text := pyStrip item.text
    if text.length < 2 then none
    else if is_header_footer text item then none
    else if digitsSpaceDash text.data && decide (text.length < 10) then none
    else some { item with text := pyCollapse text }

/-- The `(text, size, y)` triples collected by `detect_title_advanced`. -/
structure TitleCand where
  text : String
  size : ℚ
  y : ℚ
deriving DecidableEq

/-- The sort key `(x['y'], x['x'])` of the first-page scan. -/
def yxLeB (a b : Fragment) : Bool :=
  decide (a.y < b.y) || (decide (a.y = b.y) && decide (a.x ≤ b.x))

/-- The sort key `(-size, y)` of the title candidates. -/
def tcLeB (a b : TitleCand) : Bool :=
  decide (b.size < a.size) || (decide (a.size = b.size) && decide (a.y ≤ b.y))

/-- `detect_title_advanced`. -/
def detect_title_advanced (text_items : List Fragment) : String :=
  if text_items.isEmpty then "Untitled Document"
  else
    let first_page := insSort yxLeB (text_items.filter fun i => i.page == 1)
    let cands := (first_page.take 8).filterMap fun item =>
      let text := pyStrip item.text
      if text.length < 5 then none
      else if startsWithAny (pyLower text) ["page ", "chapter ", "section "]
          || patDigitsWs text || strHas text "March 2003" then none
      else if decide (item.y < 300) && decide (8 < text.length)
          && decide ((12 : ℚ) ≤ item.size) then
        some (⟨text, item.size, item.y⟩ : TitleCand)
      else none
    match insSort tcLeB cands with
    | [] => "Document"
    | best :: others =>
      let title := pyStrip (pyCollapse best.text)
      let title2 :=
        if 15 < (pySplit title).length ∨ 20 < countChar title ' ' then
          match (others.take 2).find? (fun c =>
              decide (5 < (pySplit c.text).length)
                && decide ((pySplit c.text).length < 15)) with
          | some c => c.text
          | none => title
        else title
      String.mk (title2.data.take 150)

/-- The fragment-level pipeline of the statistical extractor's
`extract_outline`: clean and filter, then title, then outline. -/
def extract_outline (items : List Fragment) : ExtractionResult :=
  let clean := clean_and_filter_text items
  ⟨detect_title_advanced clean, classify_headings_advanced clean⟩

end PFinal


/-! ## Order facts about the code-point comparison `textLt` -/

theorem textLt_asymm : ∀ x y : List Char, textLt x y = true → textLt y x = false
  | [], [], h => by simp [textLt] at h
  | [], _ :: _, _ => by simp [textLt]
  | _ :: _, [], h => by simp [textLt] at h
  | a :: xs, b :: ys, h => by
    simp only [textLt] at h ⊢
    rcases lt_trichotomy a b with hab | hab | hab
    · simp [hab, lt_asymm hab]
    · subst hab
      simp only [lt_irrefl, if_false] at h ⊢
      exact textLt_asymm xs ys h
    · simp [hab, lt_asymm hab] at h

theorem textLt_trans :
    ∀ x y z : List Char, textLt x y = true → textLt y z = true → textLt x z = true
  | [], [], _, h1, _ => by simp [textLt] at h1
  | [], _ :: _, [], _, h2 => by simp [textLt] at h2
  | [], _ :: _, _ :: _, _, _ => by simp [textLt]
  | _ :: _, y, z, h1, h2 => by
    match y, z with
    | [], _ => simp [textLt] at h1
    | _ :: _, [] => simp [textLt] at h2
    | b :: ys, c :: zs =>
      rename_i a xs
      simp only [textLt] at h1 h2 ⊢
      rcases lt_trichotomy a b with hab | hab | hab
      · rcases lt_trichotomy b c with hbc | hbc | hbc
        · simp [lt_trans hab hbc]
        · subst hbc; simp [hab]
        · simp [lt_asymm hbc, hbc] at h2
      · subst hab
        rcases lt_trichotomy a c with hac | hac | hac
        · simp [hac]
        · subst hac
          simp only [lt_irrefl, if_false] at h1 h2 ⊢
          exact textLt_trans xs ys zs h1 h2
        · simp [lt_asymm hac, hac] at h2
      · simp [lt_asymm hab, hab] at h1

theorem textLt_total3 :
    ∀ x y : List Char, textLt x y = true ∨ textLt y x = true ∨ x = y
  | [], [] => Or.inr (Or.inr rfl)
  | [], _ :: _ => Or.inl rfl
  | _ :: _, [] => Or.inr (Or.inl rfl)
  | a :: xs, b :: ys => by
    rcases lt_trichotomy a b with hab | hab | hab
    · exact Or.inl (by simp [textLt, hab])
    · subst hab
      rcases textLt_total3 xs ys with h | h | h
      · exact Or.inl (by simp [textLt, h])
      · exact Or.inr (Or.inl (by simp [textLt, h]))
      · exact Or.inr (Or.inr (by rw [h]))
    · exact Or.inr (Or.inl (by simp [textLt, hab]))

theorem textLe_total (x y : List Char) : textLe x y = true ∨ textLe y x = true := by
  unfold textLe
  by_cases h : textLt y x = true
  · exact Or.inr (by simp [textLt_asymm _ _ h])
  · exact Or.inl (by simp [Bool.not_eq_true] at h; simp [h])

theorem textLe_trans (x y z : List Char)
    (h1 : textLe x y = true) (h2 : textLe y z = true) : textLe x z = true := by
  unfold textLe at h1 h2 ⊢
  simp only [Bool.not_eq_true'] at h1 h2 ⊢
  by_contra hcne
  have hc : textLt z x = true := by
    simpa using hcne
  rcases textLt_total3 x y with hxy | hyx | heq
  · exact absurd (textLt_trans z x y hc hxy) (by simp [h2])
  · exact absurd hyx (by simp [h1])
  · rw [heq] at hc
    exact absurd hc (by simp [h2])

/-! ## The stable sort: permutation and sortedness -/

theorem orderedIns_perm (le : α → α → Bool) (a : α) (l : List α) :
    (orderedIns le a l).Perm (a :: l) := by
  induction l with
  | nil => simp [orderedIns]
  | cons b t ih =>
    unfold orderedIns
    by_cases h : le a b = true
    · simp [h]
    · simp only [h, if_false]
      exact (ih.cons b).trans (List.Perm.swap a b t)

theorem insSort_perm (le : α → α → Bool) (l : List α) : (insSort le l).Perm l := by
  induction l with
  | nil => simp [insSort]
  | cons a t ih =>
    unfold insSort
    exact (orderedIns_perm le a (insSort le t)).trans (ih.cons a)

theorem mem_orderedIns {le : α → α → Bool} {x a : α} {l : List α}
    (h : x ∈ orderedIns le a l) : x = a ∨ x ∈ l := by
  have := (orderedIns_perm le a l).mem_iff.mp h
  simpa using this

theorem orderedIns_pairwise (le : α → α → Bool)
    (htot : ∀ x y, le x y = true ∨ le y x = true)
    (htr : ∀ x y z, le x y = true → le y z = true → le x z = true)
    (a : α) (l : List α) (h : l.Pairwise fun x y => le x y = true) :
    (orderedIns le a l).Pairwise fun x y => le x y = true := by
  induction l with
  | nil => simp [orderedIns]
  | cons b t ih =>
    rcases List.pairwise_cons.mp h with ⟨hb, ht⟩
    unfold orderedIns
    by_cases hab : le a b = true
    · simp only [hab, if_true]
      refine List.Pairwise.cons ?_ h
      intro y hy
      rcases List.mem_cons.mp hy with rfl | hyt
      · exact hab
      · exact htr _ _ _ hab (hb _ hyt)
    · have hba : le b a = true := (htot a b).resolve_left hab
      simp only [hab, if_false]
      refine List.Pairwise.cons ?_ (ih ht)
      intro y hy
      rcases mem_orderedIns hy with rfl | hyt
      · exact hba
      · exact hb _ hyt

theorem insSort_pairwise (le : α → α → Bool)
    (htot : ∀ x y, le x y = true ∨ le y x = true)
    (htr : ∀ x y z, le x y = true → le y z = true → le x z = true)
    (l : List α) :
    (insSort le l).Pairwise fun x y => le x y = true := by
  induction l with
  | nil => simp [insSort]
  | cons a t ih =>
    unfold insSort
    exact orderedIns_pairwise le htot htr a _ ih

/-! ## Facts about the duplicate-suppression loops -/

theorem dedupGo_sublist :
    ∀ (l : List Enhanced.EHeading) (seen : List String),
      (Enhanced.dedupGo l seen).Sublist l
  | [], _ => by simp [Enhanced.dedupGo]
  | h :: t, seen => by
    unfold Enhanced.dedupGo
    cases hs : (seen.any fun s => decide (s = h.text)) with
    | true =>
      simp only [if_true]
      exact (dedupGo_sublist t seen).cons h
    | false =>
      simp only [Bool.false_eq_true, if_false]
      exact (dedupGo_sublist t (h.text :: seen)).cons₂ h

theorem mem_pDedupGo :
    ∀ (l : List PFinal.PHeading) (seen : List String) (e : OutlineEntry),
      e ∈ PFinal.pDedupGo l seen → ∃ h, h ∈ l ∧ e = ⟨h.level, h.text, h.page⟩ := by
  intro l
  induction l with
  | nil => intro seen e he; simp [PFinal.pDedupGo] at he
  | cons h t ih =>
    intro seen e he
    simp only [PFinal.pDedupGo] at he
    split at he
    · rcases ih _ _ he with ⟨a, ha, rfl⟩
      exact ⟨a, List.mem_cons_of_mem _ ha, rfl⟩
    · split at he
      · rcases ih _ _ he with ⟨a, ha, rfl⟩
        exact ⟨a, List.mem_cons_of_mem _ ha, rfl⟩
      · rcases List.mem_cons.mp he with rfl | he2
        · exact ⟨h, List.mem_cons_self _ _, rfl⟩
        · rcases ih _ _ he2 with ⟨a, ha, rfl⟩
          exact ⟨a, List.mem_cons_of_mem _ ha, rfl⟩

theorem pDedupGo_pairwise {R : PFinal.PHeading → PFinal.PHeading → Prop}
    {S : OutlineEntry → OutlineEntry → Prop}
    (hRS : ∀ a b, R a b → S ⟨a.level, a.text, a.page⟩ ⟨b.level, b.text, b.page⟩) :
    ∀ (l : List PFinal.PHeading) (seen : List String),
      l.Pairwise R → (PFinal.pDedupGo l seen).Pairwise S := by
  intro l
  induction l with
  | nil => intro seen _; simp [PFinal.pDedupGo]
  | cons h t ih =>
    intro seen hp
    rcases List.pairwise_cons.mp hp with ⟨hh, ht⟩
    simp only [PFinal.pDedupGo]
    split
    · exact ih _ ht
    · split
      · exact ih _ ht
      · refine List.Pairwise.cons ?_ (ih _ ht)
        intro e he
        rcases mem_pDedupGo _ _ _ he with ⟨a, ha, rfl⟩
        exact hRS _ _ (hh a ha)

/-! ## Totality and transitivity of the concrete sort relations -/

theorem ehLeB_total (a b : Enhanced.EHeading) :
    Enhanced.ehLeB a b = true ∨ Enhanced.ehLeB b a = true := by
  simp only [Enhanced.ehLeB, Bool.or_eq_true, Bool.and_eq_true, decide_eq_true_eq]
  rcases Nat.lt_trichotomy a.page b.page with h | h | h
  · exact Or.inl (Or.inl h)
  · rcases textLe_total a.text.data b.text.data with ht | ht
    · exact Or.inl (Or.inr ⟨h, ht⟩)
    · exact Or.inr (Or.inr ⟨h.symm, ht⟩)
  · exact Or.inr (Or.inl h)

theorem ehLeB_trans (a b c : Enhanced.EHeading)
    (h1 : Enhanced.ehLeB a b = true) (h2 : Enhanced.ehLeB b c = true) :
    Enhanced.ehLeB a c = true := by
  simp only [Enhanced.ehLeB, Bool.or_eq_true, Bool.and_eq_true, decide_eq_true_eq] at h1 h2 ⊢
  rcases h1 with h1 | ⟨e1, t1⟩
  · rcases h2 with h2 | ⟨e2, t2⟩
    · exact Or.inl (h1.trans h2)
    · exact Or.inl (e2 ▸ h1)
  · rcases h2 with h2 | ⟨e2, t2⟩
    · exact Or.inl (e1 ▸ h2)
    · exact Or.inr ⟨e1.trans e2, textLe_trans _ _ _ t1 t2⟩

theorem pLeB_total (a b : PFinal.PHeading) :
    PFinal.pLeB a b = true ∨ PFinal.pLeB b a = true := by
  simp only [PFinal.pLeB, Bool.or_eq_true, Bool.and_eq_true, decide_eq_true_eq]
  rcases Nat.lt_trichotomy a.page b.page with h | h | h
  · exact Or.inl (Or.inl h)
  · rcases le_total a.y b.y with ht | ht
    · exact Or.inl (Or.inr ⟨h, ht⟩)
    · exact Or.inr (Or.inr ⟨h.symm, ht⟩)
  · exact Or.inr (Or.inl h)

theorem pLeB_trans (a b c : PFinal.PHeading)
    (h1 : PFinal.pLeB a b = true) (h2 : PFinal.pLeB b c = true) :
    PFinal.pLeB a c = true := by
  simp only [PFinal.pLeB, Bool.or_eq_true, Bool.and_eq_true, decide_eq_true_eq] at h1 h2 ⊢
  rcases h1 with h1 | ⟨e1, t1⟩
  · rcases h2 with h2 | ⟨e2, t2⟩
    · exact Or.inl (h1.trans h2)
    · exact Or.inl (e2 ▸ h1)
  · rcases h2 with h2 | ⟨e2, t2⟩
    · exact Or.inl (e1 ▸ h2)
    · exact Or.inr ⟨e1.trans e2, t1.trans t2⟩

theorem qDescB_total (a b : ℚ) :
    decide (b ≤ a) = true ∨ decide (a ≤ b) = true := by
  rcases le_total b a with h | h
  · exact Or.inl (by simpa)
  · exact Or.inr (by simpa)

theorem qDescB_trans (a b c : ℚ)
    (h1 : decide (b ≤ a) = true) (h2 : decide (c ≤ b) = true) :
    decide (c ≤ a) = true := by
  simp only [decide_eq_true_eq] at h1 h2 ⊢
  exact h2.trans h1

/-- `could_be_heading` never accepts a fragment below the mean-minus-one
size bar: the size test is its second check. -/
theorem could_be_heading_size {text : String} {size mean : ℚ}
    (h : PFinal.could_be_heading text size mean = true) : ¬(size < mean - 1) := by
  intro hlt
  unfold PFinal.could_be_heading at h
  by_cases h1 : (text.length < 3 ∨ 200 < text.length)
  · rw [if_pos h1] at h
    exact absurd h (by simp)
  · rw [if_neg h1, if_pos hlt] at h
    exact absurd h (by simp)

/-! ## The claims -/

/-- Claim C1: for every fragment list whose document type is classified as
Form, Invitation, Flyer or Certificate, or whose fragment count is less
than 15, the heading gate returns false and the resulting
`ExtractionResult` has an empty outline, regardless of the fragments'
content. -/
theorem C1_gate_false_empty_outline (blocks : List Fragment)
    (h : Enhanced.detect_document_type blocks ∈
          (["form", "invitation", "flyer", "certificate"] : List String)
        ∨ blocks.length < 15) :
    Enhanced.should_extract_headings (Enhanced.detect_document_type blocks) blocks = false ∧
    (Enhanced.extract_outline blocks).outline = [] := by
  have hg : Enhanced.should_extract_headings (Enhanced.detect_document_type blocks) blocks
      = false := by
    unfold Enhanced.should_extract_headings
    rcases h with h | h
    · rw [if_pos h]
    · by_cases hd : Enhanced.detect_document_type blocks ∈
          (["form", "invitation", "flyer", "certificate"] : List String)
      · rw [if_pos hd]
      · rw [if_neg hd, if_pos h]
  refine ⟨hg, ?_⟩
  unfold Enhanced.extract_outline
  by_cases he : blocks.isEmpty = true
  · rw [if_pos he]
  · rw [if_neg he]
    simp only [hg, Bool.not_false, if_true]

/-- Concrete instance of C1: a single-fragment document (count 1 < 15). -/
def c1blocks : List Fragment := [⟨"Hello world", 1, 0, 0, 12, false⟩]

/-- Witness for C1 at a one-fragment input. -/
theorem C1_witness :
    Enhanced.should_extract_headings (Enhanced.detect_document_type c1blocks) c1blocks = false ∧
    (Enhanced.extract_outline c1blocks).outline = [] :=
  C1_gate_false_empty_outline c1blocks (Or.inr (by decide))

/-- Claim C2, counterexample: the statistical pipeline
(`p_final_pdf_extractor.extract_outline`) maps the empty fragment list to
title `"Untitled Document"` (its `detect_title_advanced` early return),
not to the fixed result `{"title": "Empty Document", "outline": []}` the
claim states for every extraction. -/
theorem C2_counterexample :
    PFinal.extract_outline [] ≠ (⟨"Empty Document", []⟩ : ExtractionResult) := by
  decide

/-- Claim C2 as amended: on the empty fragment list the Enhanced extractor
returns exactly `{"title": "Empty Document", "outline": []}`, while the
statistical extractor returns `{"title": "Untitled Document", "outline": []}`;
the outline is empty in both. -/
theorem C2_amended_empty_results :
    Enhanced.extract_outline [] = (⟨"Empty Document", []⟩ : ExtractionResult) ∧
    PFinal.extract_outline [] = (⟨"Untitled Document", []⟩ : ExtractionResult) := by
  exact ⟨by decide, by decide⟩

/-- Claim C9: the document type classifier never returns `"certificate"`
(every branch returns one of the six other labels), and a certificate
document type would shut the heading gate. -/
theorem C9_never_certificate (blocks : List Fragment) :
    Enhanced.detect_document_type blocks ∈
      (["form", "invitation", "flyer", "simple",
        "complex_document", "standard_document"] : List String) ∧
    Enhanced.should_extract_headings "certificate" blocks = false := by
  constructor
  · simp only [Enhanced.detect_document_type]
    split_ifs <;> decide
  · unfold Enhanced.should_extract_headings
    rw [if_pos (by decide :
      ("certificate" : String) ∈
        (["form", "invitation", "flyer", "certificate"] : List String))]

/-- Claim C7: the size-profile thresholds follow the three-tier table over
the descending distinct font sizes and the document mean: with at least 4
distinct sizes `(largest, 2nd, 3rd, mean)`; with 2 or 3 distinct sizes
`(largest, 2nd largest, mean+1, mean)` — the `largest−1` fallback of the
source is dead code there since a second size always exists; with fewer
than 2 distinct sizes `(mean+4, mean+2, mean+1, mean)`.  The first
conjunct justifies reading the sorted list's entries as "largest, 2nd,
3rd". -/
theorem C7_thresholds (items : List Fragment) :
    ((PFinal.distinctSizesDesc items).Pairwise fun a b => b ≤ a) ∧
    (4 ≤ (PFinal.distinctSizesDesc items).length →
      PFinal.calculate_heading_thresholds (PFinal.distinctSizesDesc items)
          (PFinal.meanSize items) =
        ⟨(PFinal.distinctSizesDesc items).getD 0 0,
         (PFinal.distinctSizesDesc items).getD 1 0,
         (PFinal.distinctSizesDesc items).getD 2 0,
         PFinal.meanSize items⟩) ∧
    (2 ≤ (PFinal.distinctSizesDesc items).length →
      (PFinal.distinctSizesDesc items).length ≤ 3 →
      PFinal.calculate_heading_thresholds (PFinal.distinctSizesDesc items)
          (PFinal.meanSize items) =
        ⟨(PFinal.distinctSizesDesc items).getD 0 0,
         (PFinal.distinctSizesDesc items).getD 1 0,
         PFinal.meanSize items + 1,
         PFinal.meanSize items⟩) ∧
    ((PFinal.distinctSizesDesc items).length < 2 →
      PFinal.calculate_heading_thresholds (PFinal.distinctSizesDesc items)
          (PFinal.meanSize items) =
        ⟨PFinal.meanSize items + 4, PFinal.meanSize items + 2,
         PFinal.meanSize items + 1, PFinal.meanSize items⟩) := by
  refine ⟨?_, ?_, ?_, ?_⟩
  · have hp := insSort_pairwise (fun a b : ℚ => decide (b ≤ a))
      qDescB_total qDescB_trans ((PFinal.posSizes items).dedup)
    unfold PFinal.distinctSizesDesc
    exact hp.imp fun h => by simpa using h
  · intro h4
    unfold PFinal.calculate_heading_thresholds
    rw [if_pos h4]
  · intro h2 h3
    unfold PFinal.calculate_heading_thresholds
    rw [if_neg (by omega), if_pos h2, if_pos (by omega)]
  · intro h1
    unfold PFinal.calculate_heading_thresholds
    rw [if_neg (by omega), if_neg (by omega)]

/-- Concrete instance for C7: four distinct sizes 20, 16, 12, 10. -/
def c7items : List Fragment :=
  [⟨"a", 1, 0, 0, 20, false⟩, ⟨"b", 1, 0, 10, 16, false⟩,
   ⟨"c", 1, 0, 20, 12, false⟩, ⟨"d", 1, 0, 30, 10, false⟩]

/-- Witness for C7 at the four-size document. -/
theorem C7_witness :
    PFinal.calculate_heading_thresholds (PFinal.distinctSizesDesc c7items)
        (PFinal.meanSize c7items) =
      ⟨(PFinal.distinctSizesDesc c7items).getD 0 0,
       (PFinal.distinctSizesDesc c7items).getD 1 0,
       (PFinal.distinctSizesDesc c7items).getD 2 0,
       PFinal.meanSize c7items⟩ :=
  (C7_thresholds c7items).2.1 (by decide)

/-- A sparse two-fragment document whose form keyword score is 3 and whose
invitation keyword score is 5: both minimums are met and invitation scores
higher, yet the classifier returns `"form"`. -/
def c3blocks : List Fragment :=
  [⟨"name: date: for:", 1, 0, 0, 12, false⟩,
   ⟨"invited party event rsvp celebration", 1, 0, 20, 12, false⟩]

/-- Claim C3, counterexample: in the sparse branch the classifier follows
the fixed priority order form, invitation, flyer, not the highest keyword
score — here the invitation score (5) exceeds the form score (3), both
meet their minimums, and `"form"` is still returned where the claim
demands the higher-scoring `"invitation"`. -/
theorem C3_counterexample :
    Enhanced.detect_document_type c3blocks = "form" ∧
    2 < Enhanced.scoreOf Enhanced.form_indicators (Enhanced.allTextLower c3blocks) ∧
    1 < Enhanced.scoreOf Enhanced.invitation_indicators (Enhanced.allTextLower c3blocks) ∧
    Enhanced.scoreOf Enhanced.form_indicators (Enhanced.allTextLower c3blocks) <
      Enhanced.scoreOf Enhanced.invitation_indicators (Enhanced.allTextLower c3blocks) ∧
    c3blocks.length < 20 ∧ Enhanced.avgTextLength c3blocks < 50 := by
  decide

/-- Claim C3 as amended: for a sparse document (fewer than 20 fragments,
mean text length below 50) the classifier picks the first type in the
fixed priority order Form (score ≥ 3), Invitation (≥ 2), Flyer (≥ 2)
whose score meets its minimum, regardless of the other scores, and
`"simple"` when none does. -/
theorem C3_amended_priority_order (blocks : List Fragment)
    (hc : blocks.length < 20) (ha : Enhanced.avgTextLength blocks < 50) :
    (2 < Enhanced.scoreOf Enhanced.form_indicators (Enhanced.allTextLower blocks) →
      Enhanced.detect_document_type blocks = "form") ∧
    (Enhanced.scoreOf Enhanced.form_indicators (Enhanced.allTextLower blocks) ≤ 2 →
     1 < Enhanced.scoreOf Enhanced.invitation_indicators (Enhanced.allTextLower blocks) →
      Enhanced.detect_document_type blocks = "invitation") ∧
    (Enhanced.scoreOf Enhanced.form_indicators (Enhanced.allTextLower blocks) ≤ 2 →
     Enhanced.scoreOf Enhanced.invitation_indicators (Enhanced.allTextLower blocks) ≤ 1 →
     1 < Enhanced.scoreOf Enhanced.flyer_indicators (Enhanced.allTextLower blocks) →
      Enhanced.detect_document_type blocks = "flyer") ∧
    (Enhanced.scoreOf Enhanced.form_indicators (Enhanced.allTextLower blocks) ≤ 2 →
     Enhanced.scoreOf Enhanced.invitation_indicators (Enhanced.allTextLower blocks) ≤ 1 →
     Enhanced.scoreOf Enhanced.flyer_indicators (Enhanced.allTextLower blocks) ≤ 1 →
      Enhanced.detect_document_type blocks = "simple") := by
  refine ⟨?_, ?_, ?_, ?_⟩ <;>
    simp only [Enhanced.detect_document_type]
  · intro hf
    rw [if_pos ⟨hc, ha⟩, if_pos hf]
  · intro hf hi
    rw [if_pos ⟨hc, ha⟩, if_neg (by omega), if_pos hi]
  · intro hf hi hl
    rw [if_pos ⟨hc, ha⟩, if_neg (by omega), if_neg (by omega), if_pos hl]
  · intro hf hi hl
    rw [if_pos ⟨hc, ha⟩, if_neg (by omega), if_neg (by omega), if_neg (by omega)]

/-- Concrete instance for C3: one sparse fragment without any keyword. -/
def c3wblocks : List Fragment := [⟨"hello", 1, 0, 0, 12, false⟩]

/-- Witness for C3's amended claim at the keyword-free sparse document. -/
theorem C3_witness : Enhanced.detect_document_type c3wblocks = "simple" :=
  (C3_amended_priority_order c3wblocks (by decide) (by decide)).2.2.2
    (by decide) (by decide) (by decide)

/-- A fragment at or above the h1 threshold that matches no level override. -/
def c4item : Fragment := ⟨"Valid Heading Text", 1, 0, 0, 20, false⟩

/-- The thresholds used with `c4item`. -/
def c4th : PFinal.Thresholds := ⟨16, 14, 12, 10⟩

/-- Claim C4, counterexample: the statistical mode's level assignment
(`determine_level_advanced`) does return `"H1"` — for any fragment at or
above the h1 size threshold that no content override demotes — although
the claim says only the conservative mode may ever assign H1. -/
theorem C4_counterexample :
    PFinal.determine_level_advanced c4item c4th = "H1" := by decide

/-- Claim C4 as amended: the statistical mode assigns `"H1"` exactly to
fragments whose size reaches the h1 threshold and whose text triggers
none of the five content overrides (the conservative mode can also emit
H1, so H1 is not exclusive to it). -/
theorem C4_amended_statistical_H1_iff (item : Fragment) (th : PFinal.Thresholds) :
    PFinal.determine_level_advanced item th = "H1" ↔
      (th.h1 ≤ item.size ∧
        PFinal.patAppendixColon item.text.data = false ∧
        PFinal.inCoreSections item.text = false ∧
        (strStarts item.text "For each" && strEnds item.text ":") = false ∧
        PFinal.patSubsection item.text.data = false ∧
        PFinal.patPhase item.text.data = false) := by
  simp only [PFinal.determine_level_advanced]
  split_ifs <;> simp_all

/-- A bold, large fragment whose text carries the denylisted substring
`"contact:"`, together with one small body fragment that fixes the mean. -/
def c8items : List Fragment :=
  [⟨"Contact: John", 1, 0, 50, 20, true⟩,
   ⟨"just some plain body words here", 1, 0, 400, 10, false⟩]

/-- Claim C8, counterexample: the statistical scorer applies no denylist —
`"Contact: John"` contains the denylisted substring `"contact:"` (the
`never_headings` constant, `Enhanced.neverHit` tests it), yet it becomes
an outline entry of `classify_headings_advanced`, so a denylisted text is
not rejected outright by every heading candidate scorer. -/
theorem C8_counterexample :
    PFinal.classify_headings_advanced c8items = [⟨"H1", "Contact: John", 1⟩] ∧
    Enhanced.neverHit "Contact: John" = true := by
  exact ⟨by decide, by decide⟩

/-- Claim C8 as amended: the conservative scorer rejects outright any text
of stripped length below 4 or above 100, or containing a denylisted
substring or a placeholder run; the statistical pre-filter rejects
outright on length below 3 or above 200 and applies no denylist. -/
theorem C8_amended_disqualification :
    (∀ (b : Fragment) (dt : String),
      ((pyStrip b.text).length < 4 ∨ 100 < (pyStrip b.text).length ∨
        Enhanced.neverHit (pyStrip b.text) = true ∨
        strHas (pyStrip b.text) "___" = true ∨
        strHas (pyStrip b.text) "---" = true ∨
        strHas (pyStrip b.text) "..." = true) →
      Enhanced.calculate_ultra_conservative_heading_score b dt = ("CONTENT", 0)) ∧
    (∀ (text : String) (size mean : ℚ),
      (text.length < 3 ∨ 200 < text.length) →
      PFinal.could_be_heading text size mean = false) := by
  constructor
  · intro b dt h
    unfold Enhanced.calculate_ultra_conservative_heading_score
    rw [if_pos h]
  · intro text size mean h
    unfold PFinal.could_be_heading
    rw [if_pos h]

/-- Witness for C8's amended claim: a two-character text is rejected by
both scorers. -/
theorem C8_witness :
    Enhanced.calculate_ultra_conservative_heading_score
        ⟨"ab", 1, 0, 0, 12, false⟩ "simple" = ("CONTENT", 0) ∧
    PFinal.could_be_heading "ab" 12 10 = false :=
  ⟨C8_amended_disqualification.1 _ _ (by decide),
   C8_amended_disqualification.2 _ _ _ (by decide)⟩

/-- Claim C10: in the statistical mode, a fragment whose font size is
below the document mean minus 1 is rejected by the pre-filter whatever
its text, and every outline entry of `classify_headings_advanced` stems
from a fragment at or above that bar. -/
theorem C10_small_size_never_heading :
    (∀ (text : String) (size mean : ℚ), size < mean - 1 →
      PFinal.could_be_heading text size mean = false) ∧
    (∀ (items : List Fragment) (e : OutlineEntry),
      e ∈ PFinal.classify_headings_advanced items →
      ∃ it, it ∈ items ∧ e.text = pyStrip it.text ∧ e.page = it.page ∧
        ¬(it.size < PFinal.meanSize items - 1)) := by
  constructor
  · intro text size mean h
    by_cases h1 : (text.length < 3 ∨ 200 < text.length)
    · unfold PFinal.could_be_heading
      rw [if_pos h1]
    · unfold PFinal.could_be_heading
      rw [if_neg h1, if_pos h]
  · intro items e he
    unfold PFinal.classify_headings_advanced at he
    by_cases h1 : items.isEmpty = true
    · rw [if_pos h1] at he
      exact absurd he (by simp)
    · rw [if_neg h1] at he
      by_cases h2 : (PFinal.posSizes items).isEmpty = true
      · rw [if_pos h2] at he
        exact absurd he (by simp)
      · rw [if_neg h2] at he
        unfold PFinal.post_process_headings_advanced at he
        dsimp only at he
        split at he
        · exact absurd he (by simp)
        · have he2 := List.take_subset 50 _ he
          rcases mem_pDedupGo _ _ _ he2 with ⟨h, hmem, rfl⟩
          have hmem2 : h ∈ items.filterMap _ := (insSort_perm _ _).mem_iff.mp hmem
          rcases List.mem_filterMap.mp hmem2 with ⟨it, hit, hf⟩
          refine ⟨it, hit, ?_⟩
          by_cases hc : PFinal.could_be_heading (pyStrip it.text) it.size
              (PFinal.meanSize items) = true
          · rw [if_pos hc] at hf
            split at hf
            · rcases Option.some.inj hf with rfl
              exact ⟨rfl, rfl, could_be_heading_size hc⟩
            · exact absurd hf (by simp)
          · rw [if_neg hc] at hf
            exact absurd hf (by simp)

/-- Witness for C10: font size 5 against mean 10 is rejected outright. -/
theorem C10_witness : PFinal.could_be_heading "Anything" 5 10 = false :=
  C10_small_size_never_heading.1 "Anything" 5 10 (by decide)

/-- A candidate normalizing to `"intro"` (length 5). -/
def c5intro : PFinal.PHeading := ⟨"H1", "Intro", 1, 14, 3, 10⟩

/-- A later candidate normalizing to `"introduction"` (length 12), which
contains `"intro"`. -/
def c5introduction : PFinal.PHeading := ⟨"H1", "Introduction", 1, 14, 3, 20⟩

/-- Modelled from the claim's words for claim C5, for comparison with the
code: drop a candidate iff its normalized text exactly matches a seen
entry, or it is a substring of / contains some seen entry whose
normalized length exceeds 10 characters. -/
def claimDedupGo : List PFinal.PHeading → List String → List OutlineEntry
  | [], _ => []
  | h :: t, seen =>
    let tn := PFinal.normalizeHeadingText h.text
    if tn ∈ seen then claimDedupGo t seen
    else if ∃ s ∈ seen, (strHas s tn = true ∨ strHas tn s = true) ∧ 10 < s.length then
      claimDedupGo t seen
    else ⟨h.level, h.text, h.page⟩ :: claimDedupGo t (tn :: seen)

/-- The claim's outline assembly: sort, the claim's drop rule, cap at 50. -/
def claim_post_process (headings : List PFinal.PHeading) : List OutlineEntry :=
  (claimDedupGo (insSort PFinal.pLeB headings) []).take 50

/-- Claim C5, counterexample: the code tests the length of the CANDIDATE's
normalized text, the claim the SEEN entry's.  With seen entry `"intro"`
(length 5) and candidate `"introduction"` (length 12, containing it), the
code drops the candidate while the claim's rule keeps it. -/
theorem C5_counterexample :
    PFinal.post_process_headings_advanced [c5intro, c5introduction] =
      [⟨"H1", "Intro", 1⟩] ∧
    claim_post_process [c5intro, c5introduction] =
      [⟨"H1", "Intro", 1⟩, ⟨"H1", "Introduction", 1⟩] := by
  exact ⟨by decide, by decide⟩

/-- The amended drop rule: as the claim, but the 10-character test reads
the candidate's own normalized length. -/
def amendedDedupGo : List PFinal.PHeading → List String → List OutlineEntry
  | [], _ => []
  | h :: t, seen =>
    let tn := PFinal.normalizeHeadingText h.text
    if tn ∈ seen then amendedDedupGo t seen
    else if ∃ s ∈ seen, (strHas s tn = true ∨ strHas tn s = true) ∧ 10 < tn.length then
      amendedDedupGo t seen
    else ⟨h.level, h.text, h.page⟩ :: amendedDedupGo t (tn :: seen)

/-- The amended outline assembly. -/
def amended_post_process (headings : List PFinal.PHeading) : List OutlineEntry :=
  (amendedDedupGo (insSort PFinal.pLeB headings) []).take 50

theorem pDedupGo_eq_amended :
    ∀ (l : List PFinal.PHeading) (seen : List String),
      PFinal.pDedupGo l seen = amendedDedupGo l seen := by
  intro l
  induction l with
  | nil => intro seen; rfl
  | cons h t ih =>
    intro seen
    simp only [PFinal.pDedupGo, amendedDedupGo]
    have e1 : (seen.any fun s => decide (s = PFinal.normalizeHeadingText h.text)) = true ↔
        PFinal.normalizeHeadingText h.text ∈ seen := by
      rw [List.any_eq_true]
      constructor
      · rintro ⟨s, hsin, hdec⟩
        rw [decide_eq_true_eq] at hdec
        exact hdec ▸ hsin
      · intro hmem
        exact ⟨_, hmem, by simp⟩
    have e2 : (seen.any fun s =>
          (strHas s (PFinal.normalizeHeadingText h.text) ||
            strHas (PFinal.normalizeHeadingText h.text) s)
            && decide (10 < (PFinal.normalizeHeadingText h.text).length)) = true ↔
        ∃ s ∈ seen, (strHas s (PFinal.normalizeHeadingText h.text) = true ∨
            strHas (PFinal.normalizeHeadingText h.text) s = true) ∧
          10 < (PFinal.normalizeHeadingText h.text).length := by
      simp [List.any_eq_true, Bool.and_eq_true, Bool.or_eq_true]
    by_cases h1 : PFinal.normalizeHeadingText h.text ∈ seen
    · rw [if_pos (e1.mpr h1), if_pos h1]
      exact ih seen
    · rw [if_neg (fun hh => h1 (e1.mp hh)), if_neg h1]
      by_cases h2 : ∃ s ∈ seen, (strHas s (PFinal.normalizeHeadingText h.text) = true ∨
          strHas (PFinal.normalizeHeadingText h.text) s = true) ∧
          10 < (PFinal.normalizeHeadingText h.text).length
      · rw [if_pos (e2.mpr h2), if_pos h2]
        exact ih seen
      · rw [if_neg (fun hh => h2 (e2.mp hh)), if_neg h2]
        rw [ih]

/-- Claim C5 as amended: during outline assembly a candidate is dropped
iff its normalized text exactly matches an already-seen normalized text,
or it is a substring of or contains some seen entry while its OWN
normalized length exceeds 10 characters; the surviving list is capped at
50 entries. -/
theorem C5_amended_drop_rule (hs : List PFinal.PHeading) :
    PFinal.post_process_headings_advanced hs = amended_post_process hs := by
  unfold PFinal.post_process_headings_advanced amended_post_process
  by_cases he : hs.isEmpty = true
  · have hnil : hs = [] := by simpa using he
    subst hnil
    rfl
  · rw [if_neg he, pDedupGo_eq_amended]

/-- A 16-fragment page-1 document: `"2. Methods"` stands higher on the
page (y 50) but `"1. Introduction"` (y 500) sorts first by text. -/
def c6blocks : List Fragment :=
  [⟨"2. Methods", 1, 0, 50, 14, false⟩,
   ⟨"1. Introduction", 1, 0, 500, 14, false⟩,
   ⟨"filler body words", 1, 0, 600, 10, false⟩,
   ⟨"filler body words", 1, 0, 605, 10, false⟩,
   ⟨"filler body words", 1, 0, 610, 10, false⟩,
   ⟨"filler body words", 1, 0, 615, 10, false⟩,
   ⟨"filler body words", 1, 0, 620, 10, false⟩,
   ⟨"filler body words", 1, 0, 625, 10, false⟩,
   ⟨"filler body words", 1, 0, 630, 10, false⟩,
   ⟨"filler body words", 1, 0, 635, 10, false⟩,
   ⟨"filler body words", 1, 0, 640, 10, false⟩,
   ⟨"filler body words", 1, 0, 645, 10, false⟩,
   ⟨"filler body words", 1, 0, 650, 10, false⟩,
   ⟨"filler body words", 1, 0, 655, 10, false⟩,
   ⟨"filler body words", 1, 0, 660, 10, false⟩,
   ⟨"filler body words", 1, 0, 665, 10, false⟩]

/-- The Enhanced pipeline's accepted candidates together with their source
fragment's vertical position and original index. -/
def enhancedCandsPos (blocks : List Fragment) (doc_type : String) :
    List (Enhanced.EHeading × ℚ × Nat) :=
  blocks.enum.filterMap fun p =>
    let b := p.2
    let t := pyStrip b.text
    let lc := Enhanced.calculate_ultra_conservative_heading_score b doc_type
    if lc.1 ≠ "CONTENT" ∧ (0.8 : ℚ) ≤ lc.2 then some (⟨lc.1, t, b.page, lc.2⟩, b.y, p.1)
    else none

/-- The ordering the claim states: page ascending, then vertical position
ascending, then original order. -/
def claimOrderLeB (x y : Enhanced.EHeading × ℚ × Nat) : Bool :=
  decide (x.1.page < y.1.page) ||
    (decide (x.1.page = y.1.page) &&
      (decide (x.2.1 < y.2.1) || (decide (x.2.1 = y.2.1) && decide (x.2.2 ≤ y.2.2))))

/-- Modelled from the claim's words for claim C6, for comparison with the
code: the outline the Enhanced candidates would form under the claimed
(page, vertical position, original order) ordering. -/
def claimOrderedOutline (blocks : List Fragment) : List OutlineEntry :=
  (insSort claimOrderLeB
      (enhancedCandsPos blocks (Enhanced.detect_document_type blocks))).map
    fun x => ⟨x.1.level, x.1.text, x.1.page⟩

set_option maxRecDepth 20000 in
/-- Claim C6, counterexample: the Enhanced pipeline orders its outline by
`(page, text)`, not `(page, vertical position, original order)` — here it
puts `"1. Introduction"` (y 500) before `"2. Methods"` (y 50), the
reverse of the claimed order. -/
theorem C6_counterexample :
    (Enhanced.extract_outline c6blocks).outline =
      [⟨"H1", "1. Introduction", 1⟩, ⟨"H1", "2. Methods", 1⟩] ∧
    claimOrderedOutline c6blocks =
      [⟨"H1", "2. Methods", 1⟩, ⟨"H1", "1. Introduction", 1⟩] := by
  exact ⟨by decide, by decide⟩

/-- Page-then-text order on outline entries. -/
def entPTLe (a b : OutlineEntry) : Prop :=
  a.page < b.page ∨ (a.page = b.page ∧ textLe a.text.data b.text.data = true)

/-- Page order on outline entries. -/
def entPageLe (a b : OutlineEntry) : Prop := a.page ≤ b.page

/-- Page-then-vertical-position order on statistical heading candidates. -/
def pPageYLe (a b : PFinal.PHeading) : Prop :=
  a.page < b.page ∨ (a.page = b.page ∧ a.y ≤ b.y)

/-- Claim C6 as amended: the Enhanced pipeline's outline is ordered by
page ascending with ties broken by TEXT ascending (code-point order); the
statistical pipeline sorts its candidates by (page, vertical position)
ascending as the claim states — its sorted candidate list is an ordered
permutation of the input — and its final outline is ordered by page
ascending. -/
theorem C6_amended_ordering :
    (∀ blocks : List Fragment,
      (Enhanced.extract_outline blocks).outline.Pairwise entPTLe) ∧
    (∀ hs : List PFinal.PHeading,
      (insSort PFinal.pLeB hs).Pairwise pPageYLe ∧ (insSort PFinal.pLeB hs).Perm hs) ∧
    (∀ hs : List PFinal.PHeading,
      (PFinal.post_process_headings_advanced hs).Pairwise entPageLe) := by
  refine ⟨?_, ?_, ?_⟩
  · intro blocks
    unfold Enhanced.extract_outline
    by_cases he : blocks.isEmpty = true
    · rw [if_pos he]
      exact List.Pairwise.nil
    · rw [if_neg he]
      dsimp only
      cases hgb : Enhanced.should_extract_headings
          (Enhanced.detect_document_type blocks) blocks with
      | false =>
        simp only [hgb, Bool.not_false, if_true]
        exact List.Pairwise.nil
      | true =>
        simp only [hgb, Bool.not_true, Bool.false_eq_true, if_false]
        rw [List.pairwise_map]
        refine List.Pairwise.sublist (dedupGo_sublist _ _) ?_
        have hp := insSort_pairwise Enhanced.ehLeB ehLeB_total ehLeB_trans
          (Enhanced.potentialHeadings blocks (Enhanced.detect_document_type blocks))
        refine hp.imp ?_
        intro a b hab
        simp only [Enhanced.ehLeB, Bool.or_eq_true, Bool.and_eq_true,
          decide_eq_true_eq] at hab
        exact hab
  · intro hs
    constructor
    · have hp := insSort_pairwise PFinal.pLeB pLeB_total pLeB_trans hs
      refine hp.imp ?_
      intro a b hab
      simp only [PFinal.pLeB, Bool.or_eq_true, Bool.and_eq_true,
        decide_eq_true_eq] at hab
      exact hab
    · exact insSort_perm _ _
  · intro hs
    unfold PFinal.post_process_headings_advanced
    split
    · exact List.Pairwise.nil
    · refine List.Pairwise.sublist (List.take_sublist _ _) ?_
      refine pDedupGo_pairwise (R := pPageYLe) ?_ _ [] ?_
      · intro a b hab
        rcases hab with hlt | ⟨heq, _⟩
        · exact Nat.le_of_lt hlt
        · exact Nat.le_of_eq heq
      · have hp := insSort_pairwise PFinal.pLeB pLeB_total pLeB_trans hs
        refine hp.imp ?_
        intro a b hab
        simp only [PFinal.pLeB, Bool.or_eq_true, Bool.and_eq_true,
          decide_eq_true_eq] at hab
        exact hab

end AutoPdf
